import Mathlib

/-!
Verification development for the `simple-agent` repository.

The Rust sources under `crates/agent/src` are shallowly embedded here:
* `run.rs` — the control loop `run_agent`, the response `parse` function,
  and the `Response` / `CommandOutput` data types;
* `ollama.rs` / `openrouter.rs` — the two chat providers' `render` functions.

Strings are modelled as Lean `String` (with the heavy lifting done on
`List Char`, the `data` field).  Machine bytes captured from a process are
modelled as `List Nat` (each entry a byte value).  The YAML (de)serialization
performed by the `serde_yml` library is modelled by an executable parser /
encoder for the fragment of YAML the program exchanges (flat mappings whose
values are scalars or block sequences of scalars); the model is documented at
each definition.
-/

namespace SimpleAgent

/-- ASCII whitespace, as in Rust's `u8::is_ascii_whitespace`
(space, tab, line feed, form feed, carriage return). -/
def isAsciiWs (c : Char) : Bool :=
  c.toNat = 32 || c.toNat = 9 || c.toNat = 10 || c.toNat = 12 || c.toNat = 13

/-- Drop trailing ASCII whitespace (Rust `str::trim_ascii_end`). -/
def dropTrailingWs (l : List Char) : List Char :=
  (l.reverse.dropWhile isAsciiWs).reverse

/-- Rust `content.trim_ascii_start().trim_ascii_end()` on the char list. -/
def trimAsciiL (l : List Char) : List Char :=
  dropTrailingWs (l.dropWhile isAsciiWs)

/-- Rust `s.trim_ascii_start().trim_ascii_end()` at the `String` level. -/
def trimAscii (s : String) : String :=
  ⟨trimAsciiL s.data⟩

/-- Rust `str::strip_prefix(p).unwrap_or(content)`: remove `p` from the front
when it is a prefix, otherwise return the input unchanged. -/
def stripPre (p l : List Char) : List Char :=
  if p.isPrefixOf l then l.drop p.length else l

/-- Rust `str::strip_suffix(p).unwrap_or(content)`: remove `p` from the end
when it is a suffix, otherwise return the input unchanged. -/
def stripSuf (p l : List Char) : List Char :=
  if p.isSuffixOf l then l.take (l.length - p.length) else l

/-- The opening fence marker spelled with the `yaml` tag (`run.rs` line 89). -/
def yamlFence : List Char := "```yaml".data

/-- The opening fence marker spelled with the `yml` tag (`run.rs` line 90). -/
def ymlFence : List Char := "```yml".data

/-- The closing fence marker (`run.rs` line 91). -/
def closeFence : List Char := "```".data

/-- The fence-stripping step of `parse` (`run.rs` lines 89-91): strip a
`yaml`-tagged opening fence, then a `yml`-tagged opening fence, then a
closing fence, each only when present. -/
def stripFencesL (l : List Char) : List Char :=
  stripSuf closeFence (stripPre ymlFence (stripPre yamlFence l))

/-- Fence stripping at the `String` level. -/
def stripFences (s : String) : String :=
  ⟨stripFencesL s.data⟩

/-- `OllamaChatProvider::render` (`ollama.rs` lines 44-46):
`format!("{}\n{}", self.system_prompt, message)`. -/
def ollamaRender (system_prompt message : String) : String :=
  system_prompt ++ "\n" ++ message

/-- `OpenRouterChatProvider::render` (`openrouter.rs` lines 43-45):
`format!("{}\n{}", self.system_prompt, message)`. -/
def openRouterRender (system_prompt message : String) : String :=
  system_prompt ++ "\n" ++ message

/-! ### Model of the YAML fragment handled by `serde_yml` in this program

`parse` in `run.rs` hands the fence-stripped text to
`serde_yml::from_str::<Response>`, and the loop hands a `CommandOutput` to
`serde_yml::to_string`.  The documents exchanged are flat mappings whose
values are scalars or block sequences of scalars.  The executable model
below covers that fragment: a line-oriented parser for a top-level mapping
with double-quoted / plain scalar values, block sequences (`- item` lines),
the `[]` empty flow sequence and `null`; it reports failures through the
error type `ParseErr` (standing in for the `serde_yml` error, whose
rendered description is what the loop places in `stderr`). -/

/-- Failure cases of the modelled YAML deserializer.  Each constructor
stands for a family of `serde_yml` errors; `errMsg` renders a description
the way `err.to_string()` does in the loop. -/
inductive ParseErr where
  | unterminatedQuoted
  | trailingChars
  | badEscape
  | badScalar
  | unexpectedItem
  | badLine
  | badItemType
  | duplicateKey
  | missingThoughts
  | missingRun
  | badThoughtsType
  | badRunType
  deriving DecidableEq, Repr

/-- The (always non-empty) textual description of a parse failure,
modelling `err.to_string()` on the `serde_yml` error. -/
def errMsg : ParseErr → String
  | .unterminatedQuoted => "unexpected end of quoted scalar"
  | .trailingChars => "trailing characters after quoted scalar"
  | .badEscape => "invalid escape in quoted scalar"
  | .badScalar => "invalid scalar"
  | .unexpectedItem => "unexpected block sequence entry"
  | .badLine => "invalid document line"
  | .badItemType => "invalid type for sequence entry: expected a string"
  | .duplicateKey => "duplicate entry in mapping"
  | .missingThoughts => "missing field thoughts"
  | .missingRun => "missing field run"
  | .badThoughtsType => "invalid type for field thoughts: expected a sequence of strings"
  | .badRunType => "invalid type for field run: expected a string"

/-- A parsed YAML value in the modelled fragment. -/
inductive Yval where
  | str (s : List Char)
  | seq (items : List (List Char))
  | null
  deriving DecidableEq, Repr

/-- Escape sequences recognized inside a double-quoted scalar. -/
def escChar (c : Char) : Option Char :=
  if c = '"' then some '"'
  else if c = '\\' then some '\\'
  else if c = 'n' then some '\n'
  else if c = 't' then some '\t'
  else none

/-- Parse the body of a double-quoted scalar (the opening quote already
consumed); the closing quote must be the final character. -/
def quotedBody : List Char → Except ParseErr (List Char)
  | [] => .error .unterminatedQuoted
  | c :: rest =>
    if c = '"' then
      if rest.isEmpty then .ok [] else .error .trailingChars
    else if c = '\\' then
      match rest with
      | [] => .error .unterminatedQuoted
      | e :: rest' =>
        match escChar e with
        | some ec => (quotedBody rest').map (ec :: ·)
        | none => .error .badEscape
    else
      (quotedBody rest).map (c :: ·)

/-- Characters allowed in a plain (unquoted) scalar in the model. -/
def plainOkChar (c : Char) : Bool :=
  32 ≤ c.toNat && c.toNat ≤ 126 && c ≠ ':' && c ≠ '#' && c ≠ '"'

/-- Characters that may not begin a plain scalar (YAML indicators). -/
def plainBadHead (c : Char) : Bool :=
  c = '-' || c = '[' || c = ']' || c = '{' || c = '}' || c = '&' || c = '*' ||
  c = '!' || c = '|' || c = '>' || c = '%' || c = '@' || c = ',' || c = '?' || c = '\x27'

/-- Whether the model accepts `t` as a plain scalar. -/
def plainOk (t : List Char) : Bool :=
  match t with
  | [] => false
  | c :: _ => !plainBadHead c && t.all plainOkChar

/-- Parse a (whitespace-trimmed) scalar value text into a `Yval`. -/
def parseValueText (t : List Char) : Except ParseErr Yval :=
  if t = "null".data ∨ t = "~".data then .ok .null
  else if t = "[]".data then .ok (.seq [])
  else
    match t with
    | [] => .ok .null
    | c :: rest =>
      if c = '"' then (quotedBody rest).map .str
      else if plainOk t then .ok (.str t)
      else .error .badScalar

/-- Split a char list into lines at `'\n'` (`"".splitOn "\n"` semantics:
the empty text yields one empty line). -/
def splitLines : List Char → List (List Char)
  | [] => [[]]
  | c :: rest =>
    if c = '\n' then [] :: splitLines rest
    else
      match splitLines rest with
      | [] => [[c]]
      | l :: ls => (c :: l) :: ls

/-- A line consisting solely of ASCII whitespace (or empty). -/
def isBlankL (l : List Char) : Bool := l.all isAsciiWs

/-- A block-sequence entry line: optional space indentation then `"- "`. -/
def isItemL (l : List Char) : Bool :=
  ("- ".data).isPrefixOf (l.dropWhile (· = ' '))

/-- Parse a block-sequence entry line into its string value. -/
def parseItemText (l : List Char) : Except ParseErr (List Char) :=
  match parseValueText (trimAsciiL ((l.dropWhile (· = ' ')).drop 2)) with
  | .ok (.str s) => .ok s
  | .ok _ => .error .badItemType
  | .error e => .error e

/-- Parse a top-level `key: value` line into the key and the raw
(trimmed) value text; the value text is empty for a bare `key:`. -/
def parseKeyLine (l : List Char) : Except ParseErr (List Char × List Char) :=
  match l with
  | [] => .error .badLine
  | c :: _ =>
    if isAsciiWs c then .error .badLine
    else
      let k := l.takeWhile (· ≠ ':')
      match l.dropWhile (· ≠ ':') with
      | [] => .error .badLine
      | _ :: v =>
        if k.isEmpty then .error .badLine
        else if v.isEmpty then .ok (k, [])
        else if v.head? = some ' ' then .ok (k, trimAsciiL v)
        else .error .badLine

/-- Parser state while scanning lines: the mapping entries found so far (in
reverse) and, when the previous key had no inline value, the pending key
with its block-sequence items gathered so far (in reverse). -/
structure PState where
  entries : List (List Char × Yval)
  pending : Option (List Char × List (List Char))
  deriving DecidableEq, Repr

/-- Close a pending key: no gathered items means the value was `null`,
otherwise it is the gathered block sequence. -/
def flushP (st : PState) : PState :=
  match st.pending with
  | none => st
  | some (k, its) =>
    ⟨(k, if its.isEmpty then Yval.null else Yval.seq its.reverse) :: st.entries, none⟩

/-- Process one document line. -/
def stepLine (st : PState) (l : List Char) : Except ParseErr PState :=
  if isBlankL l then .ok st
  else if isItemL l then
    match st.pending with
    | some (k, its) => (parseItemText l).map fun s => ⟨st.entries, some (k, s :: its)⟩
    | none => .error .unexpectedItem
  else
    match parseKeyLine l with
    | .error e => .error e
    | .ok (k, v) =>
      let st := flushP st
      if v.isEmpty then .ok ⟨st.entries, some (k, [])⟩
      else
        match parseValueText v with
        | .error e => .error e
        | .ok val => .ok ⟨(k, val) :: st.entries, none⟩

/-- Scan all lines into the list of top-level mapping entries, in document
order. -/
def entriesOf (lines : List (List Char)) : Except ParseErr (List (List Char × Yval)) :=
  (lines.foldlM stepLine ⟨[], none⟩).map fun st => (flushP st).entries.reverse

/-- The parsed directive: `struct Response` in `run.rs` (lines 73-78), with
fields `thoughts: Vec<String>` and `run: String`. -/
structure Response where
  thoughts : List String
  run : String
  deriving DecidableEq, Repr

/-- The key of the `thoughts` field. -/
def thoughtsKey : List Char := "thoughts".data

/-- The key of the `run` field. -/
def runKey : List Char := "run".data

/-- Modelled `serde_yml::from_str::<Response>` on the scanned mapping
entries: duplicate keys are rejected, both fields are looked up by name
(extra entries are ignored, as `serde` does without `deny_unknown_fields`),
and each field's value must have the declared type. -/
def buildResponse (entries : List (List Char × Yval)) : Except ParseErr Response :=
  if (entries.map Prod.fst).Nodup then
    match entries.find? (fun e => e.1 = thoughtsKey) with
    | none => .error .missingThoughts
    | some (_, Yval.seq its) =>
      match entries.find? (fun e => e.1 = runKey) with
      | none => .error .missingRun
      | some (_, Yval.str s) => .ok ⟨its.map String.mk, ⟨s⟩⟩
      | some (_, _) => .error .badRunType
    | some (_, _) => .error .badThoughtsType
  else .error .duplicateKey

/-- Modelled `serde_yml::from_str::<Response>` on raw text. -/
def yamlDecode (l : List Char) : Except ParseErr Response :=
  match entriesOf (splitLines l) with
  | .error e => .error e
  | .ok entries => buildResponse entries

/-- `parse` from `run.rs` (lines 87-94): trim ASCII whitespace from both
ends, strip an optional opening fence (either tag) and an optional closing
fence, then deserialize the remaining text as a `Response`. -/
def parse (content : String) : Except ParseErr Response :=
  yamlDecode (stripFencesL (trimAsciiL content.data))

/-! ### UTF-8 decoding of captured process bytes

`run.rs` lines 25-27 decode the spawned process's captured `stdout` and
`stderr` bytes with `String::from_utf8(...)?`, so invalid UTF-8 is fatal.
Bytes are modelled as `Nat`s and the decoder follows the strict UTF-8
validation Rust performs (continuation bytes, overlong forms, surrogates
and the `U+10FFFF` upper bound all rejected). -/

/-- A UTF-8 continuation byte (`0x80..0xBF`). -/
def contByte (b : Nat) : Bool := 0x80 ≤ b && b < 0xC0

/-- Strict UTF-8 decoding of a byte sequence, as `String::from_utf8`:
`none` exactly when the bytes are not valid UTF-8. -/
def utf8DecodeL : List Nat → Option (List Char)
  | [] => some []
  | b :: rest =>
    if b < 0x80 then
      (utf8DecodeL rest).map (Char.ofNat b :: ·)
    else if b < 0xC2 then none
    else if b < 0xE0 then
      match rest with
      | b1 :: rest' =>
        if contByte b1 then
          (utf8DecodeL rest').map (Char.ofNat ((b - 0xC0) * 0x40 + (b1 - 0x80)) :: ·)
        else none
      | [] => none
    else if b < 0xF0 then
      match rest with
      | b1 :: b2 :: rest' =>
        if (if b = 0xE0 then 0xA0 ≤ b1 && b1 < 0xC0
            else if b = 0xED then 0x80 ≤ b1 && b1 < 0xA0
            else contByte b1) && contByte b2 then
          (utf8DecodeL rest').map
            (Char.ofNat ((b - 0xE0) * 0x1000 + (b1 - 0x80) * 0x40 + (b2 - 0x80)) :: ·)
        else none
      | _ => none
    else if b < 0xF5 then
      match rest with
      | b1 :: b2 :: b3 :: rest' =>
        if (if b = 0xF0 then 0x90 ≤ b1 && b1 < 0xC0
            else if b = 0xF4 then 0x80 ≤ b1 && b1 < 0x90
            else contByte b1) && contByte b2 && contByte b3 then
          (utf8DecodeL rest').map
            (Char.ofNat ((b - 0xF0) * 0x40000 + (b1 - 0x80) * 0x1000 +
              (b2 - 0x80) * 0x40 + (b3 - 0x80)) :: ·)
        else none
      | _ => none
    else none

/-- `String::from_utf8` at the `String` level. -/
def utf8Decode (bytes : List Nat) : Option String :=
  (utf8DecodeL bytes).map fun cs => ⟨cs⟩

/-! ### The result encoder -/

/-- `struct CommandOutput` in `run.rs` (lines 80-85): the Execution
Outcome, with `exit_code: Option<i32>` absent when the process was killed
by a signal or never started. -/
structure CommandOutput where
  stdout : String
  stderr : String
  exit_code : Option Int
  deriving DecidableEq, Repr

/-- Characters a scalar may contain for the modelled emitter to write it
plain (unquoted). -/
def plainEmitChar (c : Char) : Bool :=
  c.isAlphanum || c = ' ' || c = '.' || c = '/' || c = '_'

/-- Whether the modelled emitter writes `s` plain. -/
def plainEmittable (s : String) : Bool :=
  match s.data with
  | [] => false
  | c :: _ => c ≠ ' ' && c ≠ '-' && s.data.all plainEmitChar &&
      s.data.getLast? ≠ some ' '

/-- One character of a double-quoted emitted scalar. -/
def escOut (c : Char) : List Char :=
  if c = '"' then ['\\', '"']
  else if c = '\\' then ['\\', '\\']
  else if c = '\n' then ['\\', 'n']
  else if c = '\t' then ['\\', 't']
  else [c]

/-- Scalar emission, modelling the `serde_yml` emitter's style choice on
this program's data: the empty string is written `''`, simple text is
written plain, anything else is double-quoted with escapes. -/
def emitScalar (s : String) : String :=
  if s = "" then "''"
  else if plainEmittable s then s
  else ⟨'"' :: (s.data.flatMap escOut) ++ ['"']⟩

/-- Rendering of the optional exit code: `serde_yml` writes `None` as
`null` and `Some n` as the decimal integer. -/
def exitCodeField : Option Int → String
  | none => "null"
  | some n => toString n

/-- Modelled `serde_yml::to_string::<CommandOutput>` (`run.rs` line 63):
a flat mapping in field declaration order `stdout`, `stderr`, `exit_code`,
one `key: value` line each, with a trailing newline. -/
def encodeOutput (o : CommandOutput) : String :=
  "stdout: " ++ emitScalar o.stdout ++ "\n" ++
  "stderr: " ++ emitScalar o.stderr ++ "\n" ++
  "exit_code: " ++ exitCodeField o.exit_code ++ "\n"

/-! ### The control loop

`run_agent` (`run.rs` lines 6-71) is embedded as a fuelled recursion over
an oracle supplying the environment's responses: what the backend `send`
returns on each turn and what executing a command does.  The observable
side effects are collected in a trace of events (`sent` for each message
handed to the backend `send`, `ran` for each spawned shell command). -/

/-- What the environment does when the loop executes a command: either the
process ran to completion with captured stdout/stderr byte streams and an
optional exit code, or spawning failed with an error description. -/
inductive ExecResult where
  | output (stdoutBytes stderrBytes : List Nat) (code : Option Int)
  | spawnErr (msg : String)

/-- The environment oracle: `reply i` is what `chat_provider.send` returns
on turn `i`, `exec i cmd` what running `cmd` through `bash -c` on turn `i`
does.  A `reply` error is a `BackendError`. -/
structure Oracle where
  reply : Nat → Except String String
  exec : Nat → String → ExecResult

/-- Observable side effects of the loop. -/
inductive Event where
  | sent (msg : String)
  | ran (cmd : String)
  deriving DecidableEq, Repr

/-- Fatal errors propagated out of the loop with `?`. -/
inductive LoopErr where
  | backend (msg : String)
  | utf8
  deriving DecidableEq, Repr

/-- How an invocation of the loop ended: normal `STOP` termination, a
fatal error, or the artificial end of the fuel (carrying the state the
next iteration would have used). -/
inductive LoopOutcome where
  | terminated
  | failed (e : LoopErr)
  | outOfFuel (turn : Nat) (nextMsg : String)
  deriving DecidableEq, Repr

/-- The body of `run_agent`: turn counter `i` (incremented at the top of
each iteration), current outbound `message`, accumulated event trace
`acc`.  Mirrors `run.rs` lines 9-69: send, parse, sentinel check, execute,
UTF-8 decode, encode the outcome as the next message. -/
def runLoop (o : Oracle) : Nat → Nat → String → List Event → List Event × LoopOutcome
  | 0, i, msg, acc => (acc, .outOfFuel i msg)
  | fuel + 1, i, msg, acc =>
    match o.reply (i + 1) with
    | .error e => (acc ++ [.sent msg], .failed (.backend e))
    | .ok raw =>
      match parse raw with
      | .error pe =>
          runLoop o fuel (i + 1)
            (encodeOutput ⟨"Error parsing response", errMsg pe, none⟩)
            (acc ++ [.sent msg])
      | .ok r =>
        if trimAscii r.run = "STOP" then
          (acc ++ [.sent msg], .terminated)
        else
          match o.exec (i + 1) r.run with
          | .spawnErr m =>
              runLoop o fuel (i + 1)
                (encodeOutput ⟨"Error trying to run command", m, none⟩)
                (acc ++ [.sent msg, .ran r.run])
          | .output ob eb code =>
            match utf8Decode ob with
            | none => (acc ++ [.sent msg, .ran r.run], .failed .utf8)
            | some so =>
              match utf8Decode eb with
              | none => (acc ++ [.sent msg, .ran r.run], .failed .utf8)
              | some se =>
                  runLoop o fuel (i + 1) (encodeOutput ⟨so, se, code⟩)
                    (acc ++ [.sent msg, .ran r.run])

/-! ### Fence-related predicates used in statements -/

/-- The text begins with one of the two opening fence markers. -/
def hasOpenFence (s : String) : Bool :=
  yamlFence.isPrefixOf s.data || ymlFence.isPrefixOf s.data

/-- The text ends with the closing fence marker. -/
def hasCloseFence (s : String) : Bool :=
  closeFence.isSuffixOf s.data

/-! ### Canonical well-formed directive documents

The spec's algebraic claims quantify over well-formed structured text with
a sequence-of-strings `thoughts` field and a string `run` field.  The
family below builds such documents the way the repository's own tests
write them: double-quoted scalars, two-space indented block items, one
field per line.  `scalarSafe` restricts quoted scalars to printable
characters needing no escapes, so quoting is just surrounding with `"`. -/

/-- Printable ASCII that needs no escaping inside a double-quoted scalar. -/
def scalarSafeChar (c : Char) : Bool :=
  32 ≤ c.toNat && c.toNat ≤ 126 && c ≠ '"' && c ≠ '\\'

/-- A string all of whose characters are `scalarSafeChar`. -/
abbrev scalarSafe (s : String) : Prop := s.data.all scalarSafeChar = true

/-- Surround a scalar with double quotes. -/
def quoteTok (t : List Char) : List Char := '"' :: (t ++ ['"'])

/-- A block-sequence entry line, indented by two spaces. -/
def itemLineL (t : List Char) : List Char := ' ' :: ' ' :: '-' :: ' ' :: quoteTok t

/-- The `run: "..."` line. -/
def runLineL (r : List Char) : List Char := "run: ".data ++ quoteTok r

/-- An additional `key: "..."` line for an unknown field. -/
def extraLineL (k v : List Char) : List Char := k ++ ": ".data ++ quoteTok v

/-- The lines carrying the `thoughts` field: the empty flow sequence when
there are no thoughts, otherwise a bare key followed by block entries. -/
def thoughtsLinesL (th : List (List Char)) : List (List Char) :=
  match th with
  | [] => ["thoughts: []".data]
  | _ => "thoughts:".data :: th.map itemLineL

/-- Join lines with a newline between consecutive lines. -/
def joinNL : List (List Char) → List Char
  | [] => []
  | [l] => l
  | l :: ls => l ++ '\n' :: joinNL ls

/-- The lines of a canonical directive document. -/
def docLinesL (th : List (List Char)) (r : List Char)
    (extras : List (List Char × List Char)) : List (List Char) :=
  thoughtsLinesL th ++ [runLineL r] ++ extras.map (fun p => extraLineL p.1 p.2)

/-- A canonical well-formed directive document with `thoughts` entries
`th`, command `r` and additional unknown fields `extras`, ending in a
newline. -/
def mkDocExtra (th : List String) (r : String)
    (extras : List (String × String)) : String :=
  ⟨joinNL (docLinesL (th.map String.data) r.data
    (extras.map fun p => (p.1.data, p.2.data))) ++ ['\n']⟩

/-- A canonical well-formed directive document without extra fields. -/
def mkDoc (th : List String) (r : String) : String := mkDocExtra th r []

/-- Wrap a document in a `yaml`-tagged code fence. -/
def fenceWrapYaml (s : String) : String := "```yaml\n" ++ s ++ "```"

/-- Wrap a document in a `yml`-tagged code fence. -/
def fenceWrapYml (s : String) : String := "```yml\n" ++ s ++ "```"

/-- A character allowed in a plain field name: ASCII letter or underscore. -/
def keyOkChar (c : Char) : Bool :=
  (65 ≤ c.toNat && c.toNat ≤ 90) || (97 ≤ c.toNat && c.toNat ≤ 122) || c.toNat = 95

/-- A plain alphabetic (or underscore) non-empty field name. -/
abbrev keySafe (k : String) : Prop :=
  k ≠ "" ∧ k.data.all keyOkChar = true

/-! ### Concrete environment oracles used by closed witness statements -/

/-- Backend always replies with a directive whose command is `" STOP "`. -/
def stopSpaceOracle : Oracle :=
  ⟨fun _ => .ok "thoughts: []\nrun: \" STOP \"", fun _ _ => .spawnErr "unused"⟩

/-- Backend always replies with a directive whose command is `"STOP"`. -/
def stopOracle : Oracle :=
  ⟨fun _ => .ok "thoughts:\n  - \"done\"\nrun: \"STOP\"", fun _ _ => .spawnErr "unused"⟩

/-- Backend always replies with text that fails to parse. -/
def parseFailOracle : Oracle :=
  ⟨fun _ => .ok "nonsense", fun _ _ => .spawnErr "unused"⟩

/-- Command execution captures a stdout stream that is not valid UTF-8. -/
def badUtf8Oracle : Oracle :=
  ⟨fun _ => .ok "thoughts: []\nrun: \"cat blob\"", fun _ _ => .output [255] [] (some 0)⟩

/-- Backend `send` always fails with a transport error. -/
def backendFailOracle : Oracle :=
  ⟨fun _ => .error "transport error", fun _ _ => .spawnErr "unused"⟩

/-- The spec's scenario: directive runs `echo hi`, which prints `hi`. -/
def echoOracle : Oracle :=
  ⟨fun _ => .ok "thoughts:\n  - \"check files\"\nrun: \"echo hi\"",
   fun _ _ => .output [104, 105, 10] [] (some 0)⟩

/-! ### Basic lemmas about the string primitives -/

theorem mk_data_eq (s : String) : String.mk s.data = s := rfl

theorem mk_append (a b : List Char) :
    String.mk (a ++ b) = String.mk a ++ String.mk b := rfl

/-- `stripPre` removes an actual prefix. -/
theorem stripPre_append (p x : List Char) : stripPre p (p ++ x) = x := by
  unfold stripPre
  rw [if_pos]
  · exact List.drop_left p x
  · exact List.isPrefixOf_iff_prefix.mpr (List.prefix_append p x)

/-- `stripSuf` removes an actual suffix. -/
theorem stripSuf_append (p x : List Char) : stripSuf p (x ++ p) = x := by
  unfold stripSuf
  rw [if_pos]
  · rw [List.length_append, Nat.add_sub_cancel]
    exact List.take_left x p
  · exact List.isSuffixOf_iff_suffix.mpr (List.suffix_append x p)

theorem stripPre_of_not (p l : List Char) (h : ¬ p.isPrefixOf l) :
    stripPre p l = l := by
  unfold stripPre; rw [if_neg]; simpa using h

theorem stripSuf_of_not (p l : List Char) (h : ¬ p.isSuffixOf l) :
    stripSuf p l = l := by
  unfold stripSuf; rw [if_neg]; simpa using h

theorem stripPre_exists (p l : List Char) : ∃ pre, l = pre ++ stripPre p l := by
  by_cases h : p.isPrefixOf l
  · refine ⟨p, ?_⟩
    obtain ⟨t, ht⟩ := List.isPrefixOf_iff_prefix.mp h
    subst ht
    rw [stripPre_append]
  · exact ⟨[], by rw [stripPre_of_not p l h, List.nil_append]⟩

theorem stripSuf_exists (p l : List Char) : ∃ suf, l = stripSuf p l ++ suf := by
  by_cases h : p.isSuffixOf l
  · refine ⟨p, ?_⟩
    obtain ⟨t, ht⟩ := List.isSuffixOf_iff_suffix.mp h
    subst ht
    rw [stripSuf_append]
  · exact ⟨[], by rw [stripSuf_of_not p l h, List.append_nil]⟩

/-- Every run of `stripFencesL` returns a contiguous infix of its input. -/
theorem stripFencesL_infix (l : List Char) :
    ∃ pre suf, l = pre ++ stripFencesL l ++ suf := by
  obtain ⟨p1, h1⟩ := stripPre_exists yamlFence l
  obtain ⟨p2, h2⟩ := stripPre_exists ymlFence (stripPre yamlFence l)
  obtain ⟨sf, h3⟩ := stripSuf_exists closeFence (stripPre ymlFence (stripPre yamlFence l))
  refine ⟨p1 ++ p2, sf, ?_⟩
  calc l = p1 ++ stripPre yamlFence l := h1
    _ = p1 ++ (p2 ++ stripPre ymlFence (stripPre yamlFence l)) := by rw [← h2]
    _ = p1 ++ (p2 ++ (stripFencesL l ++ sf)) := by rw [stripFencesL, ← h3]
    _ = (p1 ++ p2) ++ stripFencesL l ++ sf := by simp [List.append_assoc]

/-- All parse-failure descriptions are non-empty. -/
theorem errMsg_ne_empty (pe : ParseErr) : errMsg pe ≠ "" := by
  cases pe <;> decide

/-! ### One-step unfolding lemmas for each branch of the loop body -/

theorem runLoop_backend_err (o : Oracle) (fuel i : Nat) (msg : String)
    (acc : List Event) (e : String) (h : o.reply (i + 1) = .error e) :
    runLoop o (fuel + 1) i msg acc = (acc ++ [.sent msg], .failed (.backend e)) := by
  simp only [runLoop, h]

theorem runLoop_parse_err (o : Oracle) (fuel i : Nat) (msg : String)
    (acc : List Event) (raw : String) (pe : ParseErr)
    (h1 : o.reply (i + 1) = .ok raw) (h2 : parse raw = .error pe) :
    runLoop o (fuel + 1) i msg acc =
      runLoop o fuel (i + 1)
        (encodeOutput ⟨"Error parsing response", errMsg pe, none⟩)
        (acc ++ [.sent msg]) := by
  simp only [runLoop, h1, h2]

theorem runLoop_stop (o : Oracle) (fuel i : Nat) (msg : String)
    (acc : List Event) (raw : String) (r : Response)
    (h1 : o.reply (i + 1) = .ok raw) (h2 : parse raw = .ok r)
    (h3 : trimAscii r.run = "STOP") :
    runLoop o (fuel + 1) i msg acc = (acc ++ [.sent msg], .terminated) := by
  simp only [runLoop, h1, h2, h3, if_true]

theorem runLoop_spawn_err (o : Oracle) (fuel i : Nat) (msg : String)
    (acc : List Event) (raw : String) (r : Response) (m : String)
    (h1 : o.reply (i + 1) = .ok raw) (h2 : parse raw = .ok r)
    (h3 : trimAscii r.run ≠ "STOP") (h4 : o.exec (i + 1) r.run = .spawnErr m) :
    runLoop o (fuel + 1) i msg acc =
      runLoop o fuel (i + 1)
        (encodeOutput ⟨"Error trying to run command", m, none⟩)
        (acc ++ [.sent msg, .ran r.run]) := by
  simp only [runLoop, h1, h2, h3, h4, if_false, ite_false]

theorem runLoop_bad_utf8 (o : Oracle) (fuel i : Nat) (msg : String)
    (acc : List Event) (raw : String) (r : Response)
    (ob eb : List Nat) (code : Option Int)
    (h1 : o.reply (i + 1) = .ok raw) (h2 : parse raw = .ok r)
    (h3 : trimAscii r.run ≠ "STOP")
    (h4 : o.exec (i + 1) r.run = .output ob eb code)
    (h5 : utf8Decode ob = none ∨ utf8Decode eb = none) :
    runLoop o (fuel + 1) i msg acc =
      (acc ++ [.sent msg, .ran r.run], .failed .utf8) := by
  rcases h5 with h5 | h5
  · simp only [runLoop, h1, h2, h3, h4, h5, if_false, ite_false]
  · cases hob : utf8Decode ob with
    | none => simp only [runLoop, h1, h2, h3, h4, hob, if_false, ite_false]
    | some so => simp only [runLoop, h1, h2, h3, h4, hob, h5, if_false, ite_false]

theorem runLoop_exec_ok (o : Oracle) (fuel i : Nat) (msg : String)
    (acc : List Event) (raw : String) (r : Response)
    (ob eb : List Nat) (code : Option Int) (so se : String)
    (h1 : o.reply (i + 1) = .ok raw) (h2 : parse raw = .ok r)
    (h3 : trimAscii r.run ≠ "STOP")
    (h4 : o.exec (i + 1) r.run = .output ob eb code)
    (h5 : utf8Decode ob = some so) (h6 : utf8Decode eb = some se) :
    runLoop o (fuel + 1) i msg acc =
      runLoop o fuel (i + 1) (encodeOutput ⟨so, se, code⟩)
        (acc ++ [.sent msg, .ran r.run]) := by
  simp only [runLoop, h1, h2, h3, h4, h5, h6, if_false, ite_false]

/-- The loop only appends to its event accumulator: earlier turns' side
effects remain in the trace of every outcome. -/
theorem runLoop_trace_extends (o : Oracle) :
    ∀ fuel i msg acc, ∃ t, (runLoop o fuel i msg acc).1 = acc ++ t := by
  intro fuel
  induction fuel with
  | zero => intro i msg acc; exact ⟨[], by simp [runLoop]⟩
  | succ f ih =>
    intro i msg acc
    cases hrep : o.reply (i + 1) with
    | error e => exact ⟨[.sent msg], by rw [runLoop_backend_err o f i msg acc e hrep]⟩
    | ok raw =>
      cases hp : parse raw with
      | error pe =>
        obtain ⟨t, ht⟩ := ih (i + 1)
          (encodeOutput ⟨"Error parsing response", errMsg pe, none⟩)
          (acc ++ [.sent msg])
        exact ⟨[.sent msg] ++ t, by
          rw [runLoop_parse_err o f i msg acc raw pe hrep hp, ht, List.append_assoc]⟩
      | ok r =>
        by_cases hstop : trimAscii r.run = "STOP"
        · exact ⟨[.sent msg], by rw [runLoop_stop o f i msg acc raw r hrep hp hstop]⟩
        · cases hex : o.exec (i + 1) r.run with
          | spawnErr m =>
            obtain ⟨t, ht⟩ := ih (i + 1)
              (encodeOutput ⟨"Error trying to run command", m, none⟩)
              (acc ++ [.sent msg, .ran r.run])
            exact ⟨[.sent msg, .ran r.run] ++ t, by
              rw [runLoop_spawn_err o f i msg acc raw r m hrep hp hstop hex, ht,
                List.append_assoc]⟩
          | output ob eb code =>
            cases hob : utf8Decode ob with
            | none =>
              exact ⟨[.sent msg, .ran r.run], by
                rw [runLoop_bad_utf8 o f i msg acc raw r ob eb code hrep hp hstop hex
                  (Or.inl hob)]⟩
            | some so =>
              cases heb : utf8Decode eb with
              | none =>
                exact ⟨[.sent msg, .ran r.run], by
                  rw [runLoop_bad_utf8 o f i msg acc raw r ob eb code hrep hp hstop hex
                    (Or.inr heb)]⟩
              | some se =>
                obtain ⟨t, ht⟩ := ih (i + 1) (encodeOutput ⟨so, se, code⟩)
                  (acc ++ [.sent msg, .ran r.run])
                exact ⟨[.sent msg, .ran r.run] ++ t, by
                  rw [runLoop_exec_ok o f i msg acc raw r ob eb code so se hrep hp hstop
                    hex hob heb, ht, List.append_assoc]⟩


/-! ## Claims -/

/-- C1 (counterexample): the claim asserts a directive whose command is
`" STOP "` (whitespace around the sentinel) must NOT terminate the loop;
but the code trims the command before the comparison, so such a directive
does terminate the loop normally, with no command run and no further
message sent. -/
theorem stop_space_variant_terminates :
    runLoop stopSpaceOracle 1 0 "task" [] = ([.sent "task"], .terminated) := by
  rw [runLoop_stop stopSpaceOracle 0 0 "task" [] "thoughts: []\nrun: \" STOP \""
    ⟨[], " STOP "⟩ rfl rfl (by decide)]
  rfl

/-- C1 (amended): for every successfully parsed directive, the control
loop terminates normally (trace gains only the send of the current turn:
no command run, no outcome encoded, no further message) if and only if the
directive's command, after trimming ASCII whitespace from both ends,
equals the literal `"STOP"` exactly; in particular `"stop"` and
`"STOP please"` do not terminate, while `" STOP "` does (it trims to the
sentinel). -/
theorem loop_terminates_iff_trimmed_stop (o : Oracle) (fuel i : Nat)
    (msg : String) (acc : List Event) (raw : String) (r : Response)
    (h1 : o.reply (i + 1) = .ok raw) (h2 : parse raw = .ok r) :
    (runLoop o (fuel + 1) i msg acc = (acc ++ [.sent msg], .terminated) ↔
      trimAscii r.run = "STOP") ∧
    trimAscii " STOP " = "STOP" ∧
    trimAscii "stop" ≠ "STOP" ∧ trimAscii "STOP please" ≠ "STOP" := by
  refine ⟨⟨?_, runLoop_stop o fuel i msg acc raw r h1 h2⟩, by decide, by decide, by decide⟩
  intro hterm
  by_contra hstop
  have hlen : ∀ t : List Event,
      (acc ++ [Event.sent msg, Event.ran r.run]) ++ t ≠ acc ++ [Event.sent msg] := by
    intro t habs
    have := congrArg List.length habs
    simp [List.length_append] at this
  cases hex : o.exec (i + 1) r.run with
  | spawnErr m =>
    rw [runLoop_spawn_err o fuel i msg acc raw r m h1 h2 hstop hex] at hterm
    obtain ⟨t, ht⟩ := runLoop_trace_extends o fuel (i + 1)
      (encodeOutput ⟨"Error trying to run command", m, none⟩)
      (acc ++ [.sent msg, .ran r.run])
    exact hlen t (by rw [← ht, congrArg Prod.fst hterm])
  | output ob eb code =>
    cases hob : utf8Decode ob with
    | none =>
      rw [runLoop_bad_utf8 o fuel i msg acc raw r ob eb code h1 h2 hstop hex
        (Or.inl hob)] at hterm
      simpa using congrArg Prod.snd hterm
    | some so =>
      cases heb : utf8Decode eb with
      | none =>
        rw [runLoop_bad_utf8 o fuel i msg acc raw r ob eb code h1 h2 hstop hex
          (Or.inr heb)] at hterm
        simpa using congrArg Prod.snd hterm
      | some se =>
        rw [runLoop_exec_ok o fuel i msg acc raw r ob eb code so se h1 h2 hstop hex
          hob heb] at hterm
        obtain ⟨t, ht⟩ := runLoop_trace_extends o fuel (i + 1)
          (encodeOutput ⟨so, se, code⟩) (acc ++ [.sent msg, .ran r.run])
        exact hlen t (by rw [← ht, congrArg Prod.fst hterm])

/-- C1 (witness): the amended theorem applied to a concrete run whose
directive command is exactly `"STOP"`. -/
theorem loop_terminates_iff_trimmed_stop_witness :
    (runLoop stopOracle 1 0 "task" [] = ([.sent "task"], .terminated) ↔
      trimAscii "STOP" = "STOP") ∧
    trimAscii " STOP " = "STOP" ∧
    trimAscii "stop" ≠ "STOP" ∧ trimAscii "STOP please" ≠ "STOP" :=
  loop_terminates_iff_trimmed_stop stopOracle 0 0 "task" []
    "thoughts:\n  - \"done\"\nrun: \"STOP\"" ⟨["done"], "STOP"⟩ rfl rfl

/-- C2 (counterexample): the claimed invariant — a parsed directive's
command is never empty after trimming — fails at the concrete raw text
`thoughts: []\nrun: ""`, which parses successfully to a directive whose
command trims to the empty string. -/
theorem parse_empty_command_counterexample :
    parse "thoughts: []\nrun: \"\"" = .ok ⟨[], ""⟩ ∧ trimAscii "" = "" :=
  ⟨rfl, rfl⟩

/-- C2 (amended): parsing enforces only the presence and the string type
of the `command` field, not non-emptiness: there is raw model text from
which parsing succeeds with a command that is empty after trimming. -/
theorem parse_allows_empty_command :
    ∃ raw r, parse raw = .ok r ∧ trimAscii r.run = "" :=
  ⟨"thoughts: []\nrun: \"\"", ⟨[], ""⟩, rfl, rfl⟩

/-- C3: fence stripping is purely syntactic — the result is always a
contiguous infix of the input (only surrounding decoration is removed),
and on input bearing no fence marker the stripping step returns the text
unchanged. -/
theorem stripFences_purely_syntactic (s : String) :
    (∃ pre suf : String, s = pre ++ stripFences s ++ suf) ∧
    (¬ hasOpenFence s ∧ ¬ hasCloseFence s → stripFences s = s) := by
  constructor
  · obtain ⟨p, q, h⟩ := stripFencesL_infix s.data
    exact ⟨⟨p⟩, ⟨q⟩, congrArg String.mk h⟩
  · rintro ⟨hopen, hclose⟩
    have e1 : stripPre yamlFence s.data = s.data :=
      stripPre_of_not _ _ fun hb => hopen (by simp [hasOpenFence, hb])
    have e2 : stripPre ymlFence s.data = s.data :=
      stripPre_of_not _ _ fun hb => hopen (by simp [hasOpenFence, hb])
    have e3 : stripSuf closeFence s.data = s.data :=
      stripSuf_of_not _ _ fun hb => hclose (by simp [hasCloseFence, hb])
    show String.mk (stripFencesL s.data) = s
    rw [stripFencesL, e1, e2, e3]

/-- C3 (witness): applied to a concrete fence-free text. -/
theorem stripFences_purely_syntactic_witness :
    stripFences "run: ls" = "run: ls" :=
  (stripFences_purely_syntactic "run: ls").2 (by decide)

/-- C5: when the backend's reply fails to parse, the loop spends the turn
on a recoverable error report: it continues into the next iteration whose
outbound message is exactly the encoding of the Execution Outcome with
`stdout = "Error parsing response"`, `stderr` the parser's failure
description, and `exit_code` absent — and that description is non-empty. -/
theorem parse_failure_recoverable_turn (o : Oracle) (fuel i : Nat)
    (msg : String) (acc : List Event) (raw : String) (pe : ParseErr)
    (h1 : o.reply (i + 1) = .ok raw) (h2 : parse raw = .error pe) :
    runLoop o (fuel + 1) i msg acc =
      runLoop o fuel (i + 1)
        (encodeOutput ⟨"Error parsing response", errMsg pe, none⟩)
        (acc ++ [.sent msg]) ∧
    errMsg pe ≠ "" :=
  ⟨runLoop_parse_err o fuel i msg acc raw pe h1 h2, errMsg_ne_empty pe⟩

/-- C5 (witness): applied to a backend that answers with unparseable
text. -/
theorem parse_failure_recoverable_turn_witness :
    runLoop parseFailOracle 2 0 "m" [] =
      runLoop parseFailOracle 1 1
        (encodeOutput ⟨"Error parsing response", errMsg .badLine, none⟩)
        [.sent "m"] ∧
    errMsg ParseErr.badLine ≠ "" :=
  parse_failure_recoverable_turn parseFailOracle 1 0 "m" [] "nonsense" .badLine
    rfl rfl

/-- C6: when the spawned command runs to completion but its captured
stdout or stderr bytes are not valid UTF-8, the loop aborts as a fatal
error: the invocation ends in `failed`, no Execution Outcome is encoded
and no further message is sent (the trace gains nothing beyond this turn's
send and command run). -/
theorem non_utf8_output_fatal (o : Oracle) (fuel i : Nat) (msg : String)
    (acc : List Event) (raw : String) (r : Response)
    (ob eb : List Nat) (code : Option Int)
    (h1 : o.reply (i + 1) = .ok raw) (h2 : parse raw = .ok r)
    (h3 : trimAscii r.run ≠ "STOP")
    (h4 : o.exec (i + 1) r.run = .output ob eb code)
    (h5 : utf8Decode ob = none ∨ utf8Decode eb = none) :
    runLoop o (fuel + 1) i msg acc =
      (acc ++ [.sent msg, .ran r.run], .failed .utf8) :=
  runLoop_bad_utf8 o fuel i msg acc raw r ob eb code h1 h2 h3 h4 h5

/-- C6 (witness): a command whose captured stdout is the single invalid
byte `0xFF` aborts the loop. -/
theorem non_utf8_output_fatal_witness :
    runLoop badUtf8Oracle 3 0 "m" [] =
      ([.sent "m", .ran "cat blob"], .failed .utf8) :=
  non_utf8_output_fatal badUtf8Oracle 2 0 "m" [] "thoughts: []\nrun: \"cat blob\""
    ⟨[], "cat blob"⟩ [255] [] (some 0) rfl rfl (by decide) rfl (Or.inl rfl)

/-- C7: a backend `send` failure on any turn aborts the loop immediately
with that error, for every remaining fuel (no retry): nothing is parsed,
no command is run and no further message is sent, and the accumulated
trace of earlier turns' side effects is preserved unchanged. -/
theorem backend_error_aborts_loop (o : Oracle) (fuel i : Nat) (msg : String)
    (acc : List Event) (e : String) (h : o.reply (i + 1) = .error e) :
    runLoop o (fuel + 1) i msg acc = (acc ++ [.sent msg], .failed (.backend e)) :=
  runLoop_backend_err o fuel i msg acc e h

/-- C7 (witness): a transport failure on turn 3 (two earlier commands
already in the trace) aborts with the error and keeps the earlier trace. -/
theorem backend_error_aborts_loop_witness :
    runLoop backendFailOracle 9 2 "m"
        [.sent "a", .ran "c1", .sent "b", .ran "c2"] =
      ([.sent "a", .ran "c1", .sent "b", .ran "c2", .sent "m"],
        .failed (.backend "transport error")) :=
  backend_error_aborts_loop backendFailOracle 8 2 "m"
    [.sent "a", .ran "c1", .sent "b", .ran "c2"] "transport error" rfl

/-- C8: `render` is a pure function of the system prompt and the message,
and the local-model (Ollama) backend and the hosted-API (OpenRouter)
backend implement the identical rendering rule: both return exactly
`system_prompt + "\n" + message`. -/
theorem render_backends_agree (sp m : String) :
    ollamaRender sp m = openRouterRender sp m ∧
    ollamaRender sp m = sp ++ "\n" ++ m :=
  ⟨rfl, rfl⟩

/-- C9: after a non-terminal turn whose command ran to completion, the
next outbound message is exactly the encoder's serialization of the
Execution Outcome — a mapping in field order `stdout`, `stderr`,
`exit_code` (with `null` for an absent exit code) and nothing else; the
system prompt is not part of it (it is prepended by `render`). -/
theorem encoder_output_is_next_message (o : Oracle) (fuel i : Nat)
    (msg : String) (acc : List Event) (raw : String) (r : Response)
    (ob eb : List Nat) (code : Option Int) (so se : String)
    (h1 : o.reply (i + 1) = .ok raw) (h2 : parse raw = .ok r)
    (h3 : trimAscii r.run ≠ "STOP")
    (h4 : o.exec (i + 1) r.run = .output ob eb code)
    (h5 : utf8Decode ob = some so) (h6 : utf8Decode eb = some se) :
    runLoop o (fuel + 1) i msg acc =
      runLoop o fuel (i + 1) (encodeOutput ⟨so, se, code⟩)
        (acc ++ [.sent msg, .ran r.run]) ∧
    encodeOutput ⟨so, se, code⟩ =
      "stdout: " ++ emitScalar so ++ "\n" ++
      "stderr: " ++ emitScalar se ++ "\n" ++
      "exit_code: " ++ exitCodeField code ++ "\n" ∧
    exitCodeField none = "null" ∧
    ollamaRender "SYS" (encodeOutput ⟨so, se, code⟩) =
      "SYS" ++ "\n" ++ encodeOutput ⟨so, se, code⟩ :=
  ⟨runLoop_exec_ok o fuel i msg acc raw r ob eb code so se h1 h2 h3 h4 h5 h6,
    rfl, rfl, rfl⟩

/-- C9 (witness): the spec's scenario — `echo hi` produces stdout `hi\n`,
empty stderr, exit code 0, and the next message encodes that triple. -/
theorem encoder_output_is_next_message_witness :
    runLoop echoOracle 4 0 "m" [] =
      runLoop echoOracle 3 1 (encodeOutput ⟨"hi\n", "", some 0⟩)
        [.sent "m", .ran "echo hi"] ∧
    encodeOutput ⟨"hi\n", "", some 0⟩ =
      "stdout: " ++ emitScalar "hi\n" ++ "\n" ++
      "stderr: " ++ emitScalar "" ++ "\n" ++
      "exit_code: " ++ exitCodeField (some 0) ++ "\n" ∧
    exitCodeField none = "null" ∧
    ollamaRender "SYS" (encodeOutput ⟨"hi\n", "", some 0⟩) =
      "SYS" ++ "\n" ++ encodeOutput ⟨"hi\n", "", some 0⟩ :=
  encoder_output_is_next_message echoOracle 3 0 "m" []
    "thoughts:\n  - \"check files\"\nrun: \"echo hi\"" ⟨["check files"], "echo hi"⟩
    [104, 105, 10] [] (some 0) "hi\n" "" rfl rfl (by decide) rfl rfl rfl

/-! ### Lemmas about line splitting and joining -/

theorem splitLines_cons_newline (r : List Char) :
    splitLines ('\n' :: r) = [] :: splitLines r := by
  rw [splitLines]
  simp

theorem splitLines_cons_of_ne (c : Char) (r : List Char) (h : ¬ c = '\n') :
    splitLines (c :: r) =
      match splitLines r with
      | [] => [[c]]
      | l :: ls => (c :: l) :: ls := by
  rw [splitLines, if_neg h]

theorem splitLines_of_no_newline (l : List Char) (h : '\n' ∉ l) :
    splitLines l = [l] := by
  induction l with
  | nil => rfl
  | cons c r ih =>
    have hc : ¬ c = '\n' := fun hcc => h (hcc ▸ List.mem_cons_self c r)
    have hr : '\n' ∉ r := fun hm => h (List.mem_cons_of_mem c hm)
    rw [splitLines_cons_of_ne c r hc, ih hr]

theorem splitLines_append_newline (l r : List Char) (h : '\n' ∉ l) :
    splitLines (l ++ '\n' :: r) = l :: splitLines r := by
  induction l with
  | nil => simpa using splitLines_cons_newline r
  | cons c l ih =>
    have hc : ¬ c = '\n' := fun hcc => h (hcc ▸ List.mem_cons_self c l)
    have hl : '\n' ∉ l := fun hm => h (List.mem_cons_of_mem c hm)
    rw [List.cons_append, splitLines_cons_of_ne c _ hc, ih hl]

theorem joinNL_cons_cons (l l2 : List Char) (ls : List (List Char)) :
    joinNL (l :: l2 :: ls) = l ++ '\n' :: joinNL (l2 :: ls) := rfl

theorem splitLines_joinNL (ls : List (List Char)) (hne : ls ≠ [])
    (h : ∀ l ∈ ls, '\n' ∉ l) : splitLines (joinNL ls) = ls := by
  induction ls with
  | nil => cases hne rfl
  | cons l ls ih =>
    cases ls with
    | nil => exact splitLines_of_no_newline l (h l (List.mem_cons_self l []))
    | cons l2 ls2 =>
      rw [joinNL_cons_cons,
        splitLines_append_newline l _ (h l (List.mem_cons_self l _)),
        ih (by simp) (fun x hx => h x (List.mem_cons_of_mem l hx))]

theorem splitLines_joinNL_append (ls : List (List Char)) (r : List Char)
    (hne : ls ≠ []) (h : ∀ l ∈ ls, '\n' ∉ l) :
    splitLines (joinNL ls ++ '\n' :: r) = ls ++ splitLines r := by
  induction ls with
  | nil => cases hne rfl
  | cons l ls ih =>
    cases ls with
    | nil =>
      rw [show joinNL [l] = l from rfl,
        splitLines_append_newline l r (h l (List.mem_cons_self l []))]
      rfl
    | cons l2 ls2 =>
      rw [joinNL_cons_cons, List.append_assoc, List.cons_append,
        splitLines_append_newline l _ (h l (List.mem_cons_self l _)),
        ih (by simp) (fun x hx => h x (List.mem_cons_of_mem l hx))]
      rfl

theorem joinNL_concat (A : List (List Char)) (l : List Char) (hA : A ≠ []) :
    joinNL (A ++ [l]) = joinNL A ++ '\n' :: l := by
  induction A with
  | nil => cases hA rfl
  | cons a A ih =>
    cases A with
    | nil => rfl
    | cons a2 A2 =>
      calc joinNL ((a :: a2 :: A2) ++ [l])
          = joinNL (a :: ((a2 :: A2) ++ [l])) := by rw [List.cons_append]
        _ = a ++ '\n' :: joinNL ((a2 :: A2) ++ [l]) := by
              rw [List.cons_append]
              exact joinNL_cons_cons a a2 (A2 ++ [l])
        _ = a ++ '\n' :: (joinNL (a2 :: A2) ++ '\n' :: l) := by rw [ih (by simp)]
        _ = (a ++ '\n' :: joinNL (a2 :: A2)) ++ '\n' :: l := by
              simp [List.append_assoc]
        _ = joinNL (a :: a2 :: A2) ++ '\n' :: l := by rw [joinNL_cons_cons]

theorem joinNL_cons_shape (l : List Char) (ls : List (List Char)) :
    ∃ X, joinNL (l :: ls) = l ++ X := by
  cases ls with
  | nil => exact ⟨[], by simp [joinNL]⟩
  | cons l2 ls2 => exact ⟨'\n' :: joinNL (l2 :: ls2), joinNL_cons_cons l l2 ls2⟩

/-! ### Lemmas about trimming -/

theorem dropWhile_ws_cons_of (c : Char) (l : List Char) (h : isAsciiWs c = false) :
    (c :: l).dropWhile isAsciiWs = c :: l := by
  rw [List.dropWhile_cons, h]
  simp

theorem dropTrailingWs_snoc_newline (y : List Char) (b : Char)
    (hb : isAsciiWs b = false) :
    dropTrailingWs ((y ++ [b]) ++ ['\n']) = y ++ [b] := by
  have h1 : isAsciiWs '\n' = true := by decide
  unfold dropTrailingWs
  rw [List.reverse_append, List.reverse_append]
  simp only [List.reverse_cons, List.reverse_nil, List.nil_append, List.cons_append,
    List.dropWhile_cons, h1, hb]
  simp

theorem trimAsciiL_shape (a : Char) (m : List Char) (b : Char)
    (ha : isAsciiWs a = false) (hb : isAsciiWs b = false) :
    trimAsciiL ((a :: (m ++ [b])) ++ ['\n']) = a :: (m ++ [b]) := by
  unfold trimAsciiL
  rw [List.cons_append, dropWhile_ws_cons_of a _ ha,
    show a :: ((m ++ [b]) ++ ['\n']) = ((a :: m) ++ [b]) ++ ['\n'] from by simp,
    dropTrailingWs_snoc_newline (a :: m) b hb]
  simp

/-! ### Character-class facts -/

theorem scalarSafe_not_quote {c : Char} (h : scalarSafeChar c = true) : ¬ c = '"' := by
  intro hc
  rw [hc] at h
  exact absurd h (by decide)

theorem scalarSafe_not_backslash {c : Char} (h : scalarSafeChar c = true) :
    ¬ c = '\\' := by
  intro hc
  rw [hc] at h
  exact absurd h (by decide)

theorem scalarSafe_no_newline {t : List Char} (h : t.all scalarSafeChar = true) :
    '\n' ∉ t := by
  intro hm
  have := List.all_eq_true.mp h _ hm
  exact absurd this (by decide)

theorem keyOk_not_ws {c : Char} (h : keyOkChar c = true) : isAsciiWs c = false := by
  simp only [keyOkChar, Bool.or_eq_true, Bool.and_eq_true, decide_eq_true_eq] at h
  simp only [isAsciiWs, Bool.or_eq_false_iff, decide_eq_false_iff_not]
  omega

theorem keyOk_ne_colon {c : Char} (h : keyOkChar c = true) : ¬ c = ':' := by
  intro hc
  rw [hc] at h
  exact absurd h (by decide)

theorem keyOk_ne_space {c : Char} (h : keyOkChar c = true) : ¬ c = ' ' := by
  intro hc
  rw [hc] at h
  exact absurd h (by decide)

theorem keyOk_ne_dash {c : Char} (h : keyOkChar c = true) : ¬ c = '-' := by
  intro hc
  rw [hc] at h
  exact absurd h (by decide)

theorem keyOk_ne_newline {c : Char} (h : keyOkChar c = true) : ¬ c = '\n' := by
  intro hc
  rw [hc] at h
  exact absurd h (by decide)

/-! ### Quoted-scalar round trip -/

theorem quotedBody_roundtrip (t : List Char) (h : t.all scalarSafeChar = true) :
    quotedBody (t ++ ['"']) = .ok t := by
  induction t with
  | nil => rfl
  | cons c t ih =>
    rw [List.all_cons, Bool.and_eq_true] at h
    rw [List.cons_append, quotedBody.eq_def]
    simp only [if_neg (scalarSafe_not_quote h.1), if_neg (scalarSafe_not_backslash h.1),
      ih h.2]
    rfl

theorem dropTrailingWs_snoc (y : List Char) (b : Char) (hb : isAsciiWs b = false) :
    dropTrailingWs (y ++ [b]) = y ++ [b] := by
  unfold dropTrailingWs
  rw [List.reverse_append]
  simp only [List.reverse_cons, List.reverse_nil, List.nil_append, List.singleton_append,
    List.dropWhile_cons, hb]
  simp

theorem trimAsciiL_quoteTok (v : List Char) : trimAsciiL (quoteTok v) = quoteTok v := by
  unfold trimAsciiL quoteTok
  rw [dropWhile_ws_cons_of '"' _ (by decide),
    show ('"' :: (v ++ ['"'])) = ('"' :: v) ++ ['"'] from by simp,
    dropTrailingWs_snoc ('"' :: v) '"' (by decide)]

theorem trimAsciiL_cons_space (x : List Char) :
    trimAsciiL (' ' :: x) = trimAsciiL x := by
  unfold trimAsciiL
  rw [List.dropWhile_cons, if_pos (show isAsciiWs ' ' = true from by decide)]

theorem parseValueText_quoteTok (v : List Char) (hv : v.all scalarSafeChar = true) :
    parseValueText (quoteTok v) = .ok (.str v) := by
  have e1 : "null".data = ['n', 'u', 'l', 'l'] := rfl
  have e2 : "~".data = ['~'] := rfl
  have e3 : "[]".data = ['[', ']'] := rfl
  unfold parseValueText quoteTok
  rw [if_neg (by simp [e1, e2]), if_neg (by simp [e3])]
  simp only [if_pos rfl, quotedBody_roundtrip v hv]
  rfl

/-! ### Key-line parsing on canonical lines -/

theorem takeWhile_ne_colon (k rest : List Char) (hk : ∀ c ∈ k, ¬ c = ':') :
    (k ++ ':' :: rest).takeWhile (fun c => c ≠ ':') = k := by
  induction k with
  | nil =>
    rw [List.nil_append, List.takeWhile_cons, if_neg (by simp)]
  | cons c k ih =>
    have hc : decide (c ≠ ':') = true := by
      simp [hk c (List.mem_cons_self c k)]
    rw [List.cons_append, List.takeWhile_cons, if_pos hc,
      ih (fun a ha => hk a (List.mem_cons_of_mem c ha))]

theorem dropWhile_ne_colon (k rest : List Char) (hk : ∀ c ∈ k, ¬ c = ':') :
    (k ++ ':' :: rest).dropWhile (fun c => c ≠ ':') = ':' :: rest := by
  induction k with
  | nil =>
    rw [List.nil_append, List.dropWhile_cons, if_neg (by simp)]
  | cons c k ih =>
    have hc : decide (c ≠ ':') = true := by
      simp [hk c (List.mem_cons_self c k)]
    rw [List.cons_append, List.dropWhile_cons, if_pos hc,
      ih (fun a ha => hk a (List.mem_cons_of_mem c ha))]

theorem parseKeyLine_quoted (c : Char) (k' v : List Char)
    (hk : ∀ a ∈ c :: k', keyOkChar a = true) :
    parseKeyLine ((c :: k') ++ ':' :: ' ' :: quoteTok v) = .ok (c :: k', quoteTok v) := by
  have hcolon : ∀ a ∈ c :: k', ¬ a = ':' := fun a ha => keyOk_ne_colon (hk a ha)
  have hT : (c :: (k' ++ ':' :: ' ' :: quoteTok v)).takeWhile (fun a => a ≠ ':') = c :: k' := by
    rw [← List.cons_append]
    exact takeWhile_ne_colon (c :: k') (' ' :: quoteTok v) hcolon
  have hD : (c :: (k' ++ ':' :: ' ' :: quoteTok v)).dropWhile (fun a => a ≠ ':') =
      ':' :: ' ' :: quoteTok v := by
    rw [← List.cons_append]
    exact dropWhile_ne_colon (c :: k') (' ' :: quoteTok v) hcolon
  have hw : isAsciiWs c = false := keyOk_not_ws (hk c (List.mem_cons_self c k'))
  rw [show (c :: k') ++ ':' :: ' ' :: quoteTok v = c :: (k' ++ ':' :: ' ' :: quoteTok v)
    from rfl]
  rw [parseKeyLine.eq_def]
  simp only [hw, Bool.false_eq_true, if_false, hT, hD, List.isEmpty_cons, List.head?_cons,
    trimAsciiL_cons_space, trimAsciiL_quoteTok]
  rfl

theorem stepLine_keyQuoted (st : PState) (k v : List Char)
    (hk1 : k ≠ []) (hk : ∀ a ∈ k, keyOkChar a = true)
    (hv : v.all scalarSafeChar = true) :
    stepLine st (k ++ ':' :: ' ' :: quoteTok v) =
      .ok ⟨(k, .str v) :: (flushP st).entries, none⟩ := by
  obtain ⟨c, k', rfl⟩ : ∃ c k', k = c :: k' := by
    cases k with
    | nil => exact absurd rfl hk1
    | cons a b => exact ⟨a, b, rfl⟩
  have hc := hk c (List.mem_cons_self c k')
  have hblank : isBlankL ((c :: k') ++ ':' :: ' ' :: quoteTok v) = false := by
    rw [List.cons_append]
    simp [isBlankL, keyOk_not_ws hc]
  have hitem : isItemL ((c :: k') ++ ':' :: ' ' :: quoteTok v) = false := by
    rw [List.cons_append]
    unfold isItemL
    rw [List.dropWhile_cons, if_neg (by simp [keyOk_ne_space hc]),
      show "- ".data = ['-', ' '] from rfl]
    simp [List.isPrefixOf, Ne.symm (keyOk_ne_dash hc)]
  unfold stepLine
  simp only [hblank, hitem, Bool.false_eq_true, if_false,
    parseKeyLine_quoted c k' v hk, List.isEmpty_cons, parseValueText_quoteTok v hv]
  rfl

theorem stepLine_item (st : PState) (k : List Char) (its : List (List Char))
    (t : List Char) (hp : st.pending = some (k, its))
    (ht : t.all scalarSafeChar = true) :
    stepLine st (itemLineL t) = .ok ⟨st.entries, some (k, t :: its)⟩ := by
  have hblank : isBlankL (itemLineL t) = false := rfl
  have hitem : isItemL (itemLineL t) = true := rfl
  have hparse : parseItemText (itemLineL t) = .ok t := by
    unfold parseItemText itemLineL
    rw [show (((' ' :: ' ' :: '-' :: ' ' :: quoteTok t).dropWhile (· = ' ')).drop 2) =
      quoteTok t from rfl]
    rw [trimAsciiL_quoteTok, parseValueText_quoteTok t ht]
  unfold stepLine
  simp only [hblank, hitem, Bool.false_eq_true, if_false, if_true, hp, hparse]
  rfl

theorem stepLine_thoughts_bare (st : PState) :
    stepLine st ("thoughts:".data) = .ok ⟨(flushP st).entries, some (thoughtsKey, [])⟩ :=
  rfl

theorem stepLine_thoughts_empty (st : PState) :
    stepLine st ("thoughts: []".data) =
      .ok ⟨(thoughtsKey, Yval.seq []) :: (flushP st).entries, none⟩ :=
  rfl

theorem stepLine_blank_nil (st : PState) : stepLine st [] = .ok st := rfl

/-! ### Folding the canonical document lines -/

theorem foldlM_items (ts : List (List Char)) :
    ∀ (rest : List (List Char)) (es : List (List Char × Yval)) (k : List Char)
      (its : List (List Char)), (∀ t ∈ ts, t.all scalarSafeChar = true) →
    List.foldlM stepLine (⟨es, some (k, its)⟩ : PState) (ts.map itemLineL ++ rest) =
      List.foldlM stepLine (⟨es, some (k, ts.reverse ++ its)⟩ : PState) rest := by
  induction ts with
  | nil => intro rest es k its h; rfl
  | cons t ts ih =>
    intro rest es k its h
    rw [List.map_cons, List.cons_append, List.foldlM_cons,
      stepLine_item ⟨es, some (k, its)⟩ k its t rfl (h t (List.mem_cons_self t ts))]
    show List.foldlM stepLine (⟨es, some (k, t :: its)⟩ : PState) (ts.map itemLineL ++ rest) = _
    rw [ih rest es k (t :: its) (fun x hx => h x (List.mem_cons_of_mem t hx))]
    have : ts.reverse ++ (t :: its) = (t :: ts).reverse ++ its := by simp
    rw [this]

theorem foldlM_extras (ex : List (List Char × List Char)) :
    ∀ (rest : List (List Char)) (es : List (List Char × Yval)),
      (∀ p ∈ ex, (p.1 ≠ [] ∧ ∀ a ∈ p.1, keyOkChar a = true) ∧
        p.2.all scalarSafeChar = true) →
    List.foldlM stepLine (⟨es, none⟩ : PState)
        ((ex.map fun p => extraLineL p.1 p.2) ++ rest) =
      List.foldlM stepLine
        (⟨(ex.map fun p => (p.1, Yval.str p.2)).reverse ++ es, none⟩ : PState) rest := by
  induction ex with
  | nil => intro rest es h; rfl
  | cons p ex ih =>
    intro rest es h
    obtain ⟨⟨hk1, hk⟩, hv⟩ := h p (List.mem_cons_self p ex)
    have hline : extraLineL p.1 p.2 = p.1 ++ ':' :: ' ' :: quoteTok p.2 := by
      unfold extraLineL
      rw [show ": ".data = [':', ' '] from rfl]
      simp
    rw [List.map_cons, List.cons_append, List.foldlM_cons, hline,
      stepLine_keyQuoted ⟨es, none⟩ p.1 p.2 hk1 hk hv]
    show List.foldlM stepLine (⟨(p.1, Yval.str p.2) :: es, none⟩ : PState)
      ((ex.map fun q => extraLineL q.1 q.2) ++ rest) = _
    rw [ih rest ((p.1, Yval.str p.2) :: es)
      (fun q hq => h q (List.mem_cons_of_mem p hq))]
    have : (ex.map fun q => (q.1, Yval.str q.2)).reverse ++ ((p.1, Yval.str p.2) :: es) =
        ((p :: ex).map fun q => (q.1, Yval.str q.2)).reverse ++ es := by simp
    rw [this]

theorem runKey_ok : ∀ a ∈ runKey, keyOkChar a = true := by decide

theorem foldlM_docLines (th : List (List Char)) (r : List Char)
    (ex : List (List Char × List Char)) (rest : List (List Char))
    (hth : ∀ t ∈ th, t.all scalarSafeChar = true)
    (hr : r.all scalarSafeChar = true)
    (hex : ∀ p ∈ ex, (p.1 ≠ [] ∧ ∀ a ∈ p.1, keyOkChar a = true) ∧
      p.2.all scalarSafeChar = true) :
    List.foldlM stepLine (⟨[], none⟩ : PState) (docLinesL th r ex ++ rest) =
      List.foldlM stepLine
        (⟨(ex.map fun p => (p.1, Yval.str p.2)).reverse ++
          [(runKey, Yval.str r), (thoughtsKey, Yval.seq th)], none⟩ : PState) rest := by
  have hrun : runLineL r = runKey ++ ':' :: ' ' :: quoteTok r := rfl
  cases th with
  | nil =>
    have hsh : docLinesL [] r ex ++ rest =
        "thoughts: []".data :: runLineL r ::
          ((ex.map fun p => extraLineL p.1 p.2) ++ rest) := by
      unfold docLinesL thoughtsLinesL
      simp
    rw [hsh, List.foldlM_cons, stepLine_thoughts_empty ⟨[], none⟩]
    show List.foldlM stepLine (⟨[(thoughtsKey, Yval.seq [])], none⟩ : PState)
      (runLineL r :: ((ex.map fun p => extraLineL p.1 p.2) ++ rest)) = _
    rw [List.foldlM_cons, hrun,
      stepLine_keyQuoted ⟨[(thoughtsKey, Yval.seq [])], none⟩ runKey r (by decide)
        runKey_ok hr]
    show List.foldlM stepLine
      (⟨[(runKey, Yval.str r), (thoughtsKey, Yval.seq [])], none⟩ : PState)
      ((ex.map fun p => extraLineL p.1 p.2) ++ rest) = _
    exact foldlM_extras ex rest _ hex
  | cons t ts =>
    have hsh : docLinesL (t :: ts) r ex ++ rest =
        "thoughts:".data :: ((t :: ts).map itemLineL ++
          (runLineL r :: ((ex.map fun p => extraLineL p.1 p.2) ++ rest))) := by
      unfold docLinesL thoughtsLinesL
      simp
    rw [hsh, List.foldlM_cons, stepLine_thoughts_bare ⟨[], none⟩]
    show List.foldlM stepLine (⟨[], some (thoughtsKey, [])⟩ : PState)
      ((t :: ts).map itemLineL ++
        (runLineL r :: ((ex.map fun p => extraLineL p.1 p.2) ++ rest))) = _
    rw [foldlM_items (t :: ts) _ [] thoughtsKey [] hth, List.foldlM_cons, hrun,
      stepLine_keyQuoted ⟨[], some (thoughtsKey, (t :: ts).reverse ++ [])⟩ runKey r
        (by decide) runKey_ok hr]
    have hflush : flushP ⟨[], some (thoughtsKey, (t :: ts).reverse ++ [])⟩ =
        ⟨[(thoughtsKey, Yval.seq (t :: ts))], none⟩ := by
      unfold flushP
      have h1 : ((t :: ts).reverse ++ [] : List (List Char)).isEmpty = false := by
        simp [List.isEmpty_eq_false]
      simp [h1]
    rw [hflush]
    show List.foldlM stepLine
      (⟨[(runKey, Yval.str r), (thoughtsKey, Yval.seq (t :: ts))], none⟩ : PState)
      ((ex.map fun p => extraLineL p.1 p.2) ++ rest) = _
    exact foldlM_extras ex rest _ hex

theorem entriesOf_docLines (th : List (List Char)) (r : List Char)
    (ex : List (List Char × List Char))
    (hth : ∀ t ∈ th, t.all scalarSafeChar = true)
    (hr : r.all scalarSafeChar = true)
    (hex : ∀ p ∈ ex, (p.1 ≠ [] ∧ ∀ a ∈ p.1, keyOkChar a = true) ∧
      p.2.all scalarSafeChar = true) :
    entriesOf (docLinesL th r ex) =
      .ok ((thoughtsKey, Yval.seq th) :: (runKey, Yval.str r) ::
        ex.map fun p => (p.1, Yval.str p.2)) := by
  unfold entriesOf
  rw [show docLinesL th r ex = docLinesL th r ex ++ [] from by simp,
    foldlM_docLines th r ex [] hth hr hex]
  show Except.ok ((flushP ⟨(ex.map fun p => (p.1, Yval.str p.2)).reverse ++
    [(runKey, Yval.str r), (thoughtsKey, Yval.seq th)], none⟩).entries.reverse) = _
  unfold flushP
  simp

theorem entriesOf_docLines_wrapped (th : List (List Char)) (r : List Char)
    (ex : List (List Char × List Char))
    (hth : ∀ t ∈ th, t.all scalarSafeChar = true)
    (hr : r.all scalarSafeChar = true)
    (hex : ∀ p ∈ ex, (p.1 ≠ [] ∧ ∀ a ∈ p.1, keyOkChar a = true) ∧
      p.2.all scalarSafeChar = true) :
    entriesOf ([] :: (docLinesL th r ex ++ [[]])) =
      .ok ((thoughtsKey, Yval.seq th) :: (runKey, Yval.str r) ::
        ex.map fun p => (p.1, Yval.str p.2)) := by
  unfold entriesOf
  rw [List.foldlM_cons, stepLine_blank_nil ⟨[], none⟩]
  show (List.foldlM stepLine (⟨[], none⟩ : PState) (docLinesL th r ex ++ [[]])).map _ = _
  rw [foldlM_docLines th r ex [[]] hth hr hex]
  show Except.ok ((flushP ⟨(ex.map fun p => (p.1, Yval.str p.2)).reverse ++
    [(runKey, Yval.str r), (thoughtsKey, Yval.seq th)], none⟩).entries.reverse) = _
  unfold flushP
  simp

theorem buildResponse_canonical (thL : List (List Char)) (r : List Char)
    (exE : List (List Char × Yval))
    (hnodup : (exE.map Prod.fst).Nodup)
    (hnotT : ∀ p ∈ exE, p.1 ≠ thoughtsKey)
    (hnotR : ∀ p ∈ exE, p.1 ≠ runKey) :
    buildResponse ((thoughtsKey, Yval.seq thL) :: (runKey, Yval.str r) :: exE) =
      .ok ⟨thL.map String.mk, ⟨r⟩⟩ := by
  have hN : (((thoughtsKey, Yval.seq thL) :: (runKey, Yval.str r) :: exE).map
      Prod.fst).Nodup := by
    simp only [List.map_cons]
    rw [List.nodup_cons, List.nodup_cons]
    refine ⟨?_, ?_, hnodup⟩
    · simp only [List.mem_cons]
      rintro (h | h)
      · exact absurd h (by decide)
      · obtain ⟨p, hp, hpe⟩ := List.mem_map.mp h
        exact hnotT p hp hpe
    · intro h
      obtain ⟨p, hp, hpe⟩ := List.mem_map.mp h
      exact hnotR p hp hpe
  have hTR : thoughtsKey ≠ runKey := by decide
  unfold buildResponse
  rw [if_pos hN, List.find?_cons_of_pos _ (by simp),
    List.find?_cons_of_neg _ (by simp [hTR]), List.find?_cons_of_pos _ (by simp)]

/-! ### Shape facts about the canonical document -/

theorem no_newline_itemLine (t : List Char) (ht : t.all scalarSafeChar = true) :
    '\n' ∉ itemLineL t := by
  intro hm
  simp [itemLineL, quoteTok] at hm
  exact scalarSafe_no_newline ht hm

theorem no_newline_runLine (r : List Char) (hr : r.all scalarSafeChar = true) :
    '\n' ∉ runLineL r := by
  intro hm
  rw [show runLineL r = 'r' :: 'u' :: 'n' :: ':' :: ' ' :: quoteTok r from rfl] at hm
  simp [quoteTok] at hm
  exact scalarSafe_no_newline hr hm

theorem no_newline_extraLine (k v : List Char)
    (hk : ∀ a ∈ k, keyOkChar a = true) (hv : v.all scalarSafeChar = true) :
    '\n' ∉ extraLineL k v := by
  intro hm
  unfold extraLineL at hm
  rw [show ": ".data = [':', ' '] from rfl] at hm
  simp [quoteTok] at hm
  rcases hm with hmk | hmv
  · exact absurd (hk '\n' hmk) (by decide)
  · exact scalarSafe_no_newline hv hmv

theorem no_newline_docLines (th : List (List Char)) (r : List Char)
    (ex : List (List Char × List Char))
    (hth : ∀ t ∈ th, t.all scalarSafeChar = true)
    (hr : r.all scalarSafeChar = true)
    (hex : ∀ p ∈ ex, (p.1 ≠ [] ∧ ∀ a ∈ p.1, keyOkChar a = true) ∧
      p.2.all scalarSafeChar = true) :
    ∀ l ∈ docLinesL th r ex, '\n' ∉ l := by
  intro l hl
  unfold docLinesL at hl
  rw [List.append_assoc, List.mem_append] at hl
  rcases hl with hl | hl
  · unfold thoughtsLinesL at hl
    cases th with
    | nil =>
      rw [List.mem_singleton] at hl
      subst hl
      decide
    | cons t ts =>
      rw [List.mem_cons] at hl
      rcases hl with hl | hl
      · subst hl; decide
      · obtain ⟨t', ht', rfl⟩ := List.mem_map.mp hl
        exact no_newline_itemLine t' (hth t' ht')
  · rw [List.mem_append] at hl
    rcases hl with hl | hl
    · rw [List.mem_singleton] at hl
      subst hl
      exact no_newline_runLine r hr
    · obtain ⟨p, hp, rfl⟩ := List.mem_map.mp hl
      exact no_newline_extraLine p.1 p.2 (hex p hp).1.2 (hex p hp).2

theorem docLines_ne_nil (th : List (List Char)) (r : List Char)
    (ex : List (List Char × List Char)) : docLinesL th r ex ≠ [] := by
  unfold docLinesL thoughtsLinesL
  cases th <;> simp

theorem docLines_head_shape (th : List (List Char)) (r : List Char)
    (ex : List (List Char × List Char)) :
    ∃ m, joinNL (docLinesL th r ex) = 't' :: m := by
  unfold docLinesL thoughtsLinesL
  cases th with
  | nil =>
    have hsh : (["thoughts: []".data] ++ [runLineL r] ++
        ex.map fun p => extraLineL p.1 p.2) =
        "thoughts: []".data :: ([runLineL r] ++ ex.map fun p => extraLineL p.1 p.2) := by
      simp
    rw [hsh]
    obtain ⟨X, hX⟩ := joinNL_cons_shape ("thoughts: []".data) _
    exact ⟨"houghts: []".data ++ X, by rw [hX]; rfl⟩
  | cons t ts =>
    have hsh : (("thoughts:".data :: (t :: ts).map itemLineL) ++ [runLineL r] ++
        ex.map fun p => extraLineL p.1 p.2) =
        "thoughts:".data :: ((t :: ts).map itemLineL ++ [runLineL r] ++
          ex.map fun p => extraLineL p.1 p.2) := by
      simp
    rw [hsh]
    obtain ⟨X, hX⟩ := joinNL_cons_shape ("thoughts:".data) _
    exact ⟨"houghts:".data ++ X, by rw [hX]; rfl⟩

theorem docLines_tail_shape (th : List (List Char)) (r : List Char)
    (ex : List (List Char × List Char)) :
    ∃ y, joinNL (docLinesL th r ex) = y ++ ['"'] := by
  rcases List.eq_nil_or_concat ex with hex0 | ⟨ex', p, hconc⟩
  · subst hex0
    have hsh : docLinesL th r [] = thoughtsLinesL th ++ [runLineL r] := by
      unfold docLinesL
      simp
    have hrun2 : runLineL r = ("run: ".data ++ '"' :: r) ++ ['"'] := by
      unfold runLineL quoteTok
      simp
    rw [hsh, joinNL_concat (thoughtsLinesL th) (runLineL r)
      (by unfold thoughtsLinesL; cases th <;> simp), hrun2]
    exact ⟨joinNL (thoughtsLinesL th) ++ '\n' :: ("run: ".data ++ '"' :: r), by simp⟩
  · subst hconc
    have hsh : docLinesL th r (ex'.concat p) =
        (thoughtsLinesL th ++ [runLineL r] ++ ex'.map fun q => extraLineL q.1 q.2) ++
          [extraLineL p.1 p.2] := by
      unfold docLinesL
      rw [List.concat_eq_append, List.map_append]
      simp
    rw [hsh, joinNL_concat _ _ (by
      refine List.append_ne_nil_of_left_ne_nil ?_ _
      refine List.append_ne_nil_of_left_ne_nil ?_ _
      unfold thoughtsLinesL; cases th <;> simp)]
    have hext : extraLineL p.1 p.2 = (p.1 ++ ':' :: ' ' :: '"' :: p.2) ++ ['"'] := by
      unfold extraLineL quoteTok
      rw [show ": ".data = [':', ' '] from rfl]
      simp
    rw [hext]
    exact ⟨joinNL (thoughtsLinesL th ++ [runLineL r] ++
      ex'.map fun q => extraLineL q.1 q.2) ++ '\n' :: (p.1 ++ ':' :: ' ' :: '"' :: p.2),
      by simp⟩

theorem stripFences_noop_doc (d m y : List Char) (hm : d = 't' :: m)
    (hy : d = y ++ ['"']) : stripFencesL d = d := by
  have h1 : yamlFence.isPrefixOf d = false := by rw [hm]; rfl
  have h2 : ymlFence.isPrefixOf d = false := by rw [hm]; rfl
  have h3 : closeFence.isSuffixOf d = false := by
    rw [hy, show closeFence.isSuffixOf (y ++ ['"']) =
      closeFence.reverse.isPrefixOf ((y ++ ['"']).reverse) from rfl, List.reverse_append]
    rfl
  rw [stripFencesL, stripPre_of_not yamlFence d (by rw [h1]; simp),
    stripPre_of_not ymlFence d (by rw [h2]; simp),
    stripSuf_of_not closeFence d (by rw [h3]; simp)]

theorem trimAsciiL_doc (d m y : List Char) (hm : d = 't' :: m) (hy : d = y ++ ['"']) :
    trimAsciiL (d ++ ['\n']) = d := by
  cases y with
  | nil =>
    rw [hm] at hy
    simp at hy
  | cons c y' =>
    rw [hm, List.cons_append] at hy
    have hmy : m = y' ++ ['"'] := (List.cons.injEq _ _ _ _ ▸ hy).2
    rw [hm, hmy]
    exact trimAsciiL_shape 't' y' '"' (by decide) (by decide)

theorem yamlDecode_canonical (th : List (List Char)) (r : List Char)
    (ex : List (List Char × List Char))
    (hth : ∀ t ∈ th, t.all scalarSafeChar = true)
    (hr : r.all scalarSafeChar = true)
    (hex : ∀ p ∈ ex, (p.1 ≠ [] ∧ ∀ a ∈ p.1, keyOkChar a = true) ∧
      p.2.all scalarSafeChar = true)
    (hnodup : (ex.map Prod.fst).Nodup)
    (hexT : ∀ p ∈ ex, p.1 ≠ thoughtsKey) (hexR : ∀ p ∈ ex, p.1 ≠ runKey) :
    yamlDecode (joinNL (docLinesL th r ex)) = .ok ⟨th.map String.mk, ⟨r⟩⟩ := by
  have hexE1 : ((ex.map fun p => (p.1, Yval.str p.2)).map Prod.fst).Nodup := by
    rw [List.map_map]
    exact hnodup
  have hexE2 : ∀ q ∈ ex.map fun p => (p.1, Yval.str p.2), q.1 ≠ thoughtsKey := by
    intro q hq
    obtain ⟨p, hp, rfl⟩ := List.mem_map.mp hq
    exact hexT p hp
  have hexE3 : ∀ q ∈ ex.map fun p => (p.1, Yval.str p.2), q.1 ≠ runKey := by
    intro q hq
    obtain ⟨p, hp, rfl⟩ := List.mem_map.mp hq
    exact hexR p hp
  unfold yamlDecode
  rw [splitLines_joinNL (docLinesL th r ex) (docLines_ne_nil th r ex)
      (no_newline_docLines th r ex hth hr hex),
    entriesOf_docLines th r ex hth hr hex]
  show buildResponse ((thoughtsKey, Yval.seq th) :: (runKey, Yval.str r) ::
    ex.map fun p => (p.1, Yval.str p.2)) = _
  exact buildResponse_canonical th r _ hexE1 hexE2 hexE3

theorem yamlDecode_canonical_wrapped (th : List (List Char)) (r : List Char)
    (ex : List (List Char × List Char))
    (hth : ∀ t ∈ th, t.all scalarSafeChar = true)
    (hr : r.all scalarSafeChar = true)
    (hex : ∀ p ∈ ex, (p.1 ≠ [] ∧ ∀ a ∈ p.1, keyOkChar a = true) ∧
      p.2.all scalarSafeChar = true)
    (hnodup : (ex.map Prod.fst).Nodup)
    (hexT : ∀ p ∈ ex, p.1 ≠ thoughtsKey) (hexR : ∀ p ∈ ex, p.1 ≠ runKey) :
    yamlDecode ('\n' :: (joinNL (docLinesL th r ex) ++ ['\n'])) =
      .ok ⟨th.map String.mk, ⟨r⟩⟩ := by
  have hexE1 : ((ex.map fun p => (p.1, Yval.str p.2)).map Prod.fst).Nodup := by
    rw [List.map_map]
    exact hnodup
  have hexE2 : ∀ q ∈ ex.map fun p => (p.1, Yval.str p.2), q.1 ≠ thoughtsKey := by
    intro q hq
    obtain ⟨p, hp, rfl⟩ := List.mem_map.mp hq
    exact hexT p hp
  have hexE3 : ∀ q ∈ ex.map fun p => (p.1, Yval.str p.2), q.1 ≠ runKey := by
    intro q hq
    obtain ⟨p, hp, rfl⟩ := List.mem_map.mp hq
    exact hexR p hp
  unfold yamlDecode
  rw [splitLines_cons_newline,
    show joinNL (docLinesL th r ex) ++ ['\n'] =
      joinNL (docLinesL th r ex) ++ '\n' :: [] from rfl,
    splitLines_joinNL_append (docLinesL th r ex) [] (docLines_ne_nil th r ex)
      (no_newline_docLines th r ex hth hr hex),
    show splitLines [] = [[]] from rfl,
    entriesOf_docLines_wrapped th r ex hth hr hex]
  show buildResponse ((thoughtsKey, Yval.seq th) :: (runKey, Yval.str r) ::
    ex.map fun p => (p.1, Yval.str p.2)) = _
  exact buildResponse_canonical th r _ hexE1 hexE2 hexE3

theorem trimAsciiL_fenced (F X : List Char) (c : Char) (F' : List Char)
    (hF : F = c :: F') (hc : isAsciiWs c = false) :
    trimAsciiL ((F ++ X) ++ closeFence) = (F ++ X) ++ closeFence := by
  subst hF
  unfold trimAsciiL
  rw [show ((c :: F') ++ X) ++ closeFence = c :: ((F' ++ X) ++ closeFence) from by simp,
    dropWhile_ws_cons_of c _ hc]
  unfold dropTrailingWs
  rw [List.reverse_cons, List.reverse_append,
    show ((closeFence.reverse ++ (F' ++ X).reverse) ++ [c]).dropWhile isAsciiWs =
      (closeFence.reverse ++ (F' ++ X).reverse) ++ [c] from by
        rw [List.append_assoc]; rfl,
    ← List.reverse_append, ← List.reverse_cons, List.reverse_reverse]

theorem stripFencesL_yaml_fenced (X : List Char) :
    stripFencesL (("```yaml\n".data ++ X) ++ closeFence) = '\n' :: X := by
  have e1 : ("```yaml\n".data ++ X) ++ closeFence =
      yamlFence ++ ('\n' :: (X ++ closeFence)) := by
    rw [show "```yaml\n".data = yamlFence ++ ['\n'] from rfl]
    simp
  rw [stripFencesL, e1, stripPre_append,
    stripPre_of_not ymlFence _ (by
      rw [show ymlFence.isPrefixOf ('\n' :: (X ++ closeFence)) = false from rfl]
      simp),
    show '\n' :: (X ++ closeFence) = ('\n' :: X) ++ closeFence from by simp,
    stripSuf_append]

theorem stripFencesL_yml_fenced (X : List Char) :
    stripFencesL (("```yml\n".data ++ X) ++ closeFence) = '\n' :: X := by
  have e1 : ("```yml\n".data ++ X) ++ closeFence =
      ymlFence ++ ('\n' :: (X ++ closeFence)) := by
    rw [show "```yml\n".data = ymlFence ++ ['\n'] from rfl]
    simp
  rw [stripFencesL,
    stripPre_of_not yamlFence _ (by
      rw [show yamlFence.isPrefixOf (("```yml\n".data ++ X) ++ closeFence) = false
        from rfl]
      simp),
    e1, stripPre_append,
    show '\n' :: (X ++ closeFence) = ('\n' :: X) ++ closeFence from by simp,
    stripSuf_append]

theorem map_mk_data (th : List String) : (th.map String.data).map String.mk = th := by
  induction th with
  | nil => rfl
  | cons t ts ih =>
    rw [List.map_cons, List.map_cons, ih, mk_data_eq]

theorem data_injective : Function.Injective String.data := fun a b h => by
  rw [← mk_data_eq a, ← mk_data_eq b, h]

/-- C4: for all well-formed structured text in the canonical family — a
`thoughts` sequence of (escape-free printable) strings and a `run` string —
parsing succeeds and returns the command value exactly, and the result is
the same whether the document is unfenced, wrapped in a ```` ```yaml ````
fence, or wrapped in a ```` ```yml ```` fence. -/
theorem parse_roundtrip_fences (th : List String) (r : String)
    (hth : ∀ t ∈ th, scalarSafe t) (hr : scalarSafe r) :
    parse (mkDoc th r) = .ok ⟨th, r⟩ ∧
    parse (fenceWrapYaml (mkDoc th r)) = .ok ⟨th, r⟩ ∧
    parse (fenceWrapYml (mkDoc th r)) = .ok ⟨th, r⟩ := by
  have hthL : ∀ t ∈ th.map String.data, t.all scalarSafeChar = true := by
    intro t ht
    obtain ⟨t', ht', rfl⟩ := List.mem_map.mp ht
    exact hth t' ht'
  have hexL : ∀ p ∈ ([] : List (List Char × List Char)),
      (p.1 ≠ [] ∧ ∀ a ∈ p.1, keyOkChar a = true) ∧ p.2.all scalarSafeChar = true := by
    intro p hp
    cases hp
  have hok := yamlDecode_canonical (th.map String.data) r.data [] hthL hr hexL
    List.nodup_nil (fun p hp => absurd hp (List.not_mem_nil p))
    (fun p hp => absurd hp (List.not_mem_nil p))
  have hokw := yamlDecode_canonical_wrapped (th.map String.data) r.data [] hthL hr hexL
    List.nodup_nil (fun p hp => absurd hp (List.not_mem_nil p))
    (fun p hp => absurd hp (List.not_mem_nil p))
  have hres : (⟨(th.map String.data).map String.mk, ⟨r.data⟩⟩ : Response) = ⟨th, r⟩ := by
    rw [map_mk_data, mk_data_eq]
  rw [hres] at hok hokw
  obtain ⟨m, hm⟩ := docLines_head_shape (th.map String.data) r.data []
  obtain ⟨y, hy⟩ := docLines_tail_shape (th.map String.data) r.data []
  have hdata : (mkDoc th r).data =
      joinNL (docLinesL (th.map String.data) r.data []) ++ ['\n'] := rfl
  refine ⟨?_, ?_, ?_⟩
  · unfold parse
    rw [hdata, trimAsciiL_doc _ m y hm hy, stripFences_noop_doc _ m y hm hy]
    exact hok
  · unfold parse
    rw [show (fenceWrapYaml (mkDoc th r)).data =
        ("```yaml\n".data ++ (mkDoc th r).data) ++ closeFence from rfl,
      trimAsciiL_fenced _ _ _ _ rfl (by decide), stripFencesL_yaml_fenced,
      hdata]
    exact hokw
  · unfold parse
    rw [show (fenceWrapYml (mkDoc th r)).data =
        ("```yml\n".data ++ (mkDoc th r).data) ++ closeFence from rfl,
      trimAsciiL_fenced _ _ _ _ rfl (by decide), stripFencesL_yml_fenced,
      hdata]
    exact hokw

/-- C4 (witness): the round trip at a concrete document. -/
theorem parse_roundtrip_fences_witness :
    parse (mkDoc ["check files"] "echo hi") = .ok ⟨["check files"], "echo hi"⟩ ∧
    parse (fenceWrapYaml (mkDoc ["check files"] "echo hi")) =
      .ok ⟨["check files"], "echo hi"⟩ ∧
    parse (fenceWrapYml (mkDoc ["check files"] "echo hi")) =
      .ok ⟨["check files"], "echo hi"⟩ :=
  parse_roundtrip_fences ["check files"] "echo hi" (by decide) (by decide)

/-- C10: parsing ignores unknown fields — a well-formed document carrying
the required `thoughts` and `run` fields plus any additional distinct
fields parses successfully to the same directive, the extra fields
silently dropped; whereas a document missing the required `run` field, or
typing it as a sequence instead of a string, fails with a parse error. -/
theorem parse_ignores_unknown_fields (th : List String) (r : String)
    (extras : List (String × String))
    (hth : ∀ t ∈ th, scalarSafe t) (hr : scalarSafe r)
    (hex : ∀ p ∈ extras, keySafe p.1 ∧ scalarSafe p.2)
    (hnodup : (extras.map Prod.fst).Nodup)
    (hdist : ∀ p ∈ extras, p.1 ≠ "thoughts" ∧ p.1 ≠ "run") :
    parse (mkDocExtra th r extras) = .ok ⟨th, r⟩ ∧
    parse "thoughts: []" = .error .missingRun ∧
    parse "thoughts: []\nrun: []" = .error .badRunType := by
  refine ⟨?_, rfl, rfl⟩
  have hthL : ∀ t ∈ th.map String.data, t.all scalarSafeChar = true := by
    intro t ht
    obtain ⟨t', ht', rfl⟩ := List.mem_map.mp ht
    exact hth t' ht'
  have hexL : ∀ q ∈ extras.map (fun p => (p.1.data, p.2.data)),
      (q.1 ≠ [] ∧ ∀ a ∈ q.1, keyOkChar a = true) ∧ q.2.all scalarSafeChar = true := by
    intro q hq
    obtain ⟨p, hp, rfl⟩ := List.mem_map.mp hq
    obtain ⟨⟨hne, hall⟩, hsafe⟩ := hex p hp
    refine ⟨⟨fun hd => ?_, fun a ha => List.all_eq_true.mp hall a ha⟩, hsafe⟩
    have hd2 : p.1.data = [] := hd
    exact hne (by rw [← mk_data_eq p.1, hd2])
  have hnodupL : ((extras.map (fun p => (p.1.data, p.2.data))).map Prod.fst).Nodup := by
    rw [show (extras.map (fun p => (p.1.data, p.2.data))).map Prod.fst =
      (extras.map Prod.fst).map String.data from by rw [List.map_map, List.map_map]; rfl]
    exact hnodup.map data_injective
  have hexTL : ∀ q ∈ extras.map (fun p => (p.1.data, p.2.data)), q.1 ≠ thoughtsKey := by
    intro q hq
    obtain ⟨p, hp, rfl⟩ := List.mem_map.mp hq
    intro hd
    have hd2 : p.1.data = thoughtsKey := hd
    exact (hdist p hp).1 (by rw [← mk_data_eq p.1, hd2]; rfl)
  have hexRL : ∀ q ∈ extras.map (fun p => (p.1.data, p.2.data)), q.1 ≠ runKey := by
    intro q hq
    obtain ⟨p, hp, rfl⟩ := List.mem_map.mp hq
    intro hd
    have hd2 : p.1.data = runKey := hd
    exact (hdist p hp).2 (by rw [← mk_data_eq p.1, hd2]; rfl)
  have hok := yamlDecode_canonical (th.map String.data) r.data
    (extras.map (fun p => (p.1.data, p.2.data))) hthL hr hexL hnodupL hexTL hexRL
  have hres : (⟨(th.map String.data).map String.mk, ⟨r.data⟩⟩ : Response) = ⟨th, r⟩ := by
    rw [map_mk_data, mk_data_eq]
  rw [hres] at hok
  obtain ⟨m, hm⟩ := docLines_head_shape (th.map String.data) r.data
    (extras.map (fun p => (p.1.data, p.2.data)))
  obtain ⟨y, hy⟩ := docLines_tail_shape (th.map String.data) r.data
    (extras.map (fun p => (p.1.data, p.2.data)))
  unfold parse
  rw [show (mkDocExtra th r extras).data =
      joinNL (docLinesL (th.map String.data) r.data
        (extras.map (fun p => (p.1.data, p.2.data)))) ++ ['\n'] from rfl,
    trimAsciiL_doc _ m y hm hy, stripFences_noop_doc _ m y hm hy]
  exact hok

/-- C10 (witness): a document with an extra `model` field parses to the
directive carrying only the two declared fields. -/
theorem parse_ignores_unknown_fields_witness :
    parse (mkDocExtra ["a"] "ls" [("model", "gpt")]) = .ok ⟨["a"], "ls"⟩ ∧
    parse "thoughts: []" = .error .missingRun ∧
    parse "thoughts: []\nrun: []" = .error .badRunType :=
  parse_ignores_unknown_fields ["a"] "ls" [("model", "gpt")] (by decide) (by decide)
    (by decide) (by decide) (by decide)

/-- C4 (counterexample): the universal round-trip claim fails on the
well-formed document `thoughts: []\nrun: echo x` followed by three
backticks — a legitimate YAML plain scalar, since a backtick is reserved
only as the first character of one.  Unfenced, the closing-fence strip
removes the trailing backticks from the value, yielding command
`"echo x"`; wrapped in a ```` ```yaml ```` fence, the strip consumes the
fence instead and the command is `"echo x```"`.  The parsed command is
not the written value, and the unfenced and fenced results disagree (also
after whitespace trimming). -/
theorem fence_strip_alters_plain_scalar_command :
    parse "thoughts: []\nrun: echo x```" = .ok ⟨[], "echo x"⟩ ∧
    parse (fenceWrapYaml "thoughts: []\nrun: echo x```") = .ok ⟨[], "echo x```"⟩ ∧
    trimAscii "echo x" ≠ trimAscii "echo x```" :=
  ⟨rfl, rfl, by decide⟩
